import Mathlib

/-!
Shallow embedding of the employee-excel-viewer normalization and
aggregation pipeline (src/src/App.js).  Cell values decoded from a
worksheet are modelled by `CellValue` (the scalar kinds the pipeline
branches on: undefined, null, boolean, number, string; numbers are
modelled as exact rationals, with a separate `JNum` type adding the
NaN value that JS arithmetic can produce).  The `processFile` handler
(index location, row formatting, per-manager aggregation, the
averaging pass), the export sheet builder, and the three presence
predicates are translated definition by definition.
-/

/-- A scalar cell value as seen by the JS code: `undefined`, `null`,
a boolean, a number, or a string.  Numbers are modelled as rationals. -/
inductive CellValue where
  | undef : CellValue
  | null : CellValue
  | bool : Bool → CellValue
  | num : ℚ → CellValue
  | str : String → CellValue
deriving DecidableEq, Repr

/-- A JS numeric result: either NaN or an exact value.  (Infinities are
not modelled; no code path under study produces them.) -/
inductive JNum where
  | nan : JNum
  | val : ℚ → JNum
deriving DecidableEq, Repr

/-- Rational addition via `mkRat` (the standard `Rat.add` is marked
irreducible, which blocks kernel evaluation of concrete instances;
`qAdd_eq` below shows this is the same operation). -/
def qAdd (a b : ℚ) : ℚ := mkRat (a.num * b.den + b.num * a.den) (a.den * b.den)

/-- Rational multiplication via `mkRat`; equals `·*·` by `qMul_eq`. -/
def qMul (a b : ℚ) : ℚ := mkRat (a.num * b.num) (a.den * b.den)

/-- Rational division via `Rat.divInt`; equals `·/·` by `qDiv_eq`. -/
def qDiv (a b : ℚ) : ℚ := Rat.divInt (a.num * b.den) (a.den * b.num)

/-- JS `+` on numbers: NaN is absorbing. -/
def JNum.add : JNum → JNum → JNum
  | .nan, _ => .nan
  | _, .nan => .nan
  | .val a, .val b => .val (qAdd a b)

/-- JS `/` on numbers: NaN is absorbing.  Division by zero yields
Infinity or NaN in JS; the model folds that case into NaN (it is shown
unreachable in the averaging pass). -/
def JNum.div : JNum → JNum → JNum
  | .nan, _ => .nan
  | _, .nan => .nan
  | .val a, .val b => if b = 0 then .nan else .val (qDiv a b)

/-- `toFixed(2)` rounding of an average, modelled as rounding the
exact rational half-up to 2 decimal places (the JS result is a decimal
string; only its numeric content matters here).  NaN stays NaN. -/
def roundTo2 : JNum → JNum
  | .nan => .nan
  | .val q => .val (Rat.divInt (qAdd (qMul q (mkRat 100 1)) (mkRat 1 2)).floor 100)

/-- Digit list to natural number, most significant first. -/
def digitsToNat : List Char → Nat → Nat
  | [], acc => acc
  | c :: rest, acc => digitsToNat rest (acc * 10 + (c.toNat - '0'.toNat))

/-- Fractional digit list to a rational in `[0,1)`. -/
def fracDigitsToRat (cs : List Char) : ℚ :=
  Rat.divInt (digitsToNat cs 0) ((10 : Nat) ^ cs.length)

/-- Exponent tail of a float literal: after `e`/`E`, an optional sign
and digits; an `e` not followed by digits contributes exponent 0
(JS `parseFloat` stops before it). -/
def parseExponent (cs : List Char) : Int :=
  match cs with
  | c :: rest =>
    if c = 'e' ∨ c = 'E' then
      let signed : Int × List Char :=
        match rest with
        | '-' :: r => (-1, r)
        | '+' :: r => (1, r)
        | _ => (1, rest)
      let edigits := signed.2.takeWhile Char.isDigit
      if edigits = [] then 0 else signed.1 * (digitsToNat edigits 0 : Int)
    else 0
  | [] => 0

/-- Scale a rational by a (possibly negative) power of ten. -/
def scaleByPow10 (q : ℚ) : Int → ℚ
  | .ofNat n => qMul q (mkRat (((10 : Nat) ^ n : Nat) : Int) 1)
  | .negSucc n => qDiv q (mkRat (((10 : Nat) ^ (n + 1) : Nat) : Int) 1)

/-- Model of JS `parseFloat`: skip leading whitespace, optional sign,
the longest decimal-literal prefix (digits, optional fraction,
optional exponent); NaN when no digit is found.  (`"Infinity"` is not
modelled; no input under study uses it.) -/
def parseFloat (s : String) : JNum :=
  let cs := s.data.dropWhile Char.isWhitespace
  let signed : Int × List Char :=
    match cs with
    | '-' :: r => (-1, r)
    | '+' :: r => (1, r)
    | _ => (1, cs)
  let intPart := signed.2.takeWhile Char.isDigit
  let afterInt := signed.2.dropWhile Char.isDigit
  let fracPart :=
    match afterInt with
    | '.' :: r => r.takeWhile Char.isDigit
    | _ => []
  let afterFrac :=
    match afterInt with
    | '.' :: r => r.dropWhile Char.isDigit
    | _ => afterInt
  if intPart = [] ∧ fracPart = [] then .nan
  else
    let mantissa : ℚ := qAdd ((digitsToNat intPart 0 : Nat) : ℚ) (fracDigitsToRat fracPart)
    let signedMantissa : ℚ := if signed.1 < 0 then -mantissa else mantissa
    .val (scaleByPow10 signedMantissa (parseExponent afterFrac))

/-- JS `toLowerCase`, modelled character by character. -/
def jsToLower (s : String) : String :=
  String.mk (s.data.map Char.toLower)

/-- JS `trim`: drop whitespace from both ends. -/
def jsTrim (s : String) : String :=
  String.mk
    (((s.data.dropWhile Char.isWhitespace).reverse.dropWhile
      Char.isWhitespace).reverse)

/-- JS truthiness of a cell value (`if (x)`): `undefined`, `null`,
`false`, `0` and `""` are falsy, everything else truthy. -/
def truthy : CellValue → Bool
  | .undef => false
  | .null => false
  | .bool b => b
  | .num q => decide (q ≠ 0)
  | .str s => decide (s ≠ "")

/-- The recognized-truthy participation strings of App.js
(`['ja', 'yes', 'y', 'true', '1']`). -/
def truthyStrings : List String := ["ja", "yes", "y", "true", "1"]

/-- The recognized-falsy participation strings of App.js
(`['nee', 'no', 'n', 'false', '0']`). -/
def falsyStrings : List String := ["nee", "no", "n", "false", "0"]

/-- The aggregator's presence check (App.js lines 148-161): booleans
classify as themselves, numbers as `!== 0`, strings by membership of
the lower-cased trimmed form in `truthyStrings`; `undefined` and
`null` leave the initial `false`. -/
def isPresent : CellValue → Bool
  | .undef => false
  | .null => false
  | .bool b => b
  | .num q => decide (q ≠ 0)
  | .str s => truthyStrings.contains (jsTrim (jsToLower s))

/-- Display-highlighting predicate `isPresentClassName` (App.js lines
277-291): returns the class `"bg-red-200"` for the explicitly listed
non-present values and for a string whose lower-cased (NOT trimmed)
form is in `falsyStrings` or outside `truthyStrings`; otherwise `""`. -/
def isPresentClassName : CellValue → String
  | .undef => "bg-red-200"
  | .null => "bg-red-200"
  | .bool b => if b = false then "bg-red-200" else ""
  | .num q => if q = 0 then "bg-red-200" else ""
  | .str s =>
    if s = "" ∨ falsyStrings.contains (jsToLower s) ∨ ¬ truthyStrings.contains (jsToLower s)
    then "bg-red-200" else ""

/-- The shared final return of `formatPresentDisplay`
(`present === true || present === 1 ? 'Yes' : 'No'`). -/
def formatPresentFallback : CellValue → String
  | .bool true => "Yes"
  | .num q => if q = 1 then "Yes" else "No"
  | _ => "No"

/-- Export label `formatPresentDisplay` (App.js lines 294-304): a
string is normalized (lower-case, trim) and looked up in the truthy
then the falsy list; every other case falls through to the strict
`=== true || === 1` check. -/
def formatPresentDisplay : CellValue → String
  | .str s =>
    let normalized := jsTrim (jsToLower s)
    if truthyStrings.contains normalized then "Yes"
    else if falsyStrings.contains normalized then "No"
    else formatPresentFallback (.str s)
  | v => formatPresentFallback v

/-- Modelled from the spec: the `classifyPresence` function of spec
section 4.2, clause by clause, as restated in the claim — a native
boolean classifies as itself; a number is present iff nonzero; a
string is present iff its lower-cased, trimmed form is one of
`ja, yes, y, true, 1`; `undefined` and `null` (and hence the empty
string) are absent. -/
def classifyPresenceSpec : CellValue → Bool
  | .bool b => b
  | .num q => decide (q ≠ 0)
  | .str s => ["ja", "yes", "y", "true", "1"].contains (jsTrim (jsToLower s))
  | .undef => false
  | .null => false

/-- JS `Array.prototype.findIndex`, with `none` standing for `-1`. -/
def findIndexCV (p : CellValue → Bool) : List CellValue → Option Nat
  | [] => none
  | h :: t => if p h then some 0 else (findIndexCV p t).map (· + 1)

/-- Predicate of the participation-column search
(`h === 'Aanwezig' || h === 'Present' || h === 'Participation'`). -/
def isParticipationHeader (h : CellValue) : Bool :=
  h == CellValue.str "Aanwezig" || h == CellValue.str "Present" ||
    h == CellValue.str "Participation"

/-- `aanwezigIndex` of App.js lines 96-98: the first column whose
header matches any of the three participation names. -/
def aanwezigIndexOf (headers : List CellValue) : Option Nat :=
  findIndexCV isParticipationHeader headers

/-- `leidinggevendeIndex`: first header strictly equal to the string
`"Leidinggevende"`. -/
def leidinggevendeIndexOf (headers : List CellValue) : Option Nat :=
  findIndexCV (fun h => h == CellValue.str "Leidinggevende") headers

/-- `parttimeIndex`: first header strictly equal to the string
`"Parttime (%)"`. -/
def parttimeIndexOf (headers : List CellValue) : Option Nat :=
  findIndexCV (fun h => h == CellValue.str "Parttime (%)") headers

/-- JS `row[i]`: out-of-range or hole access yields `undefined`. -/
def rowGet (row : List CellValue) (i : Nat) : CellValue :=
  row.getD i CellValue.undef

/-- One normalized employee record (App.js lines 116-128).  Dates are
kept as the raw truthy cell (the `new Date` wrapper is presentation). -/
structure EmployeeRecord where
  id : CellValue
  name : CellValue
  function : CellValue
  employmentType : CellValue
  employeeType : CellValue
  startDate : Option CellValue
  endDate : Option CellValue
  employer : CellValue
  manager : CellValue
  partTimePercentage : CellValue
  present : CellValue
deriving DecidableEq, Repr

/-- Row-to-record mapping of App.js lines 107-129: positional fields,
the manager and part-time cells located by index, and the participation
cell defaulted to the string `"nee"` when `undefined` (column absent or
cell missing). -/
def formatRow (aIdx : Option Nat) (leidIdx partIdx : Nat)
    (row : List CellValue) : EmployeeRecord :=
  let presentRaw :=
    match aIdx with
    | some i => rowGet row i
    | none => CellValue.undef
  let presentValue :=
    if presentRaw = CellValue.undef then CellValue.str "nee" else presentRaw
  { id := rowGet row 0
    name := rowGet row 1
    function := rowGet row 2
    employmentType := rowGet row 3
    employeeType := rowGet row 4
    startDate := if truthy (rowGet row 5) then some (rowGet row 5) else none
    endDate := if truthy (rowGet row 6) then some (rowGet row 6) else none
    employer := rowGet row 9
    manager := rowGet row leidIdx
    partTimePercentage := rowGet row partIdx
    present := presentValue }

/-- Per-manager counters and sums (`managerStats[...]` object). -/
structure ManagerStats where
  totalEmployees : Nat
  presentEmployees : Nat
  absentEmployees : Nat
  totalPartTimePercentage : JNum
  avgPartTimePercentage : JNum
deriving DecidableEq, Repr

/-- A fresh group (App.js lines 136-142): every field zero. -/
def initStats : ManagerStats :=
  { totalEmployees := 0, presentEmployees := 0, absentEmployees := 0
    totalPartTimePercentage := JNum.val 0, avgPartTimePercentage := JNum.val 0 }

/-- The stats object, modelled as an insertion-ordered association
list with string keys (JS object property order for these keys). -/
abbrev StatsMap := List (String × ManagerStats)

/-- Property lookup on the stats object. -/
def lookupM : StatsMap → String → Option ManagerStats
  | [], _ => none
  | (k, v) :: rest, key => if k = key then some v else lookupM rest key

/-- In-place mutation of the (first, hence unique) entry with the
given key. -/
def updateM : StatsMap → String → (ManagerStats → ManagerStats) → StatsMap
  | [], _, _ => []
  | (k, v) :: rest, key, f =>
    if k = key then (k, f v) :: rest else (k, v) :: updateM rest key f

/-- JS property-key coercion of the manager cell.  Manager cells are
strings in practice; the non-string cases approximate JS `ToString`
(non-integer numbers are rendered via `Rat` `toString`, a harmless
approximation since no claim depends on such keys). -/
def toKey : CellValue → String
  | .str s => s
  | .bool true => "true"
  | .bool false => "false"
  | .num q => if q.den = 1 then toString q.num else toString q
  | .null => "null"
  | .undef => "undefined"

/-- The numeric coercion inside the `+=` on App.js lines 170-173:
a string goes through `parseFloat`, a number is used as is, and the
remaining (truthy, hence boolean `true`) case coerces as JS `ToNumber`
would under `+=`. -/
def toNumber : CellValue → JNum
  | .str s => parseFloat s
  | .num q => .val q
  | .bool true => .val 1
  | .bool false => .val 0
  | .null => .val 0
  | .undef => .nan

/-- The per-record mutation of a manager group (App.js lines 145-174):
increment the total, then exactly one of present/absent according to
`isPresent`, then add the coerced part-time value when it is truthy. -/
def bumpStats (e : EmployeeRecord) (st : ManagerStats) : ManagerStats :=
  let st1 := { st with totalEmployees := st.totalEmployees + 1 }
  let st2 :=
    if isPresent e.present then
      { st1 with presentEmployees := st1.presentEmployees + 1 }
    else
      { st1 with absentEmployees := st1.absentEmployees + 1 }
  if truthy e.partTimePercentage then
    { st2 with totalPartTimePercentage :=
        st2.totalPartTimePercentage.add (toNumber e.partTimePercentage) }
  else st2

/-- One iteration of the `formattedData.forEach` fold (App.js lines
133-176): skip a record with a falsy manager, lazily create the
group, then apply `bumpStats` to it. -/
def statsStep (ms : StatsMap) (e : EmployeeRecord) : StatsMap :=
  if truthy e.manager then
    let key := toKey e.manager
    let ms1 := if (lookupM ms key).isSome then ms else ms ++ [(key, initStats)]
    updateM ms1 key (bumpStats e)
  else ms

/-- The whole aggregation fold over the record list. -/
def buildStats (recs : List EmployeeRecord) : StatsMap :=
  recs.foldl statsStep []

/-- The second pass (App.js lines 179-182): set each group's average
to the rounded quotient of its sum by its total. -/
def setAvg (st : ManagerStats) : ManagerStats :=
  { st with avgPartTimePercentage :=
      roundTo2 (JNum.div st.totalPartTimePercentage
        (JNum.val (st.totalEmployees : ℚ))) }

/-- Apply `setAvg` to every group. -/
def computeAverages (ms : StatsMap) : StatsMap :=
  ms.map (fun kv => (kv.1, setAvg kv.2))

/-- Outcome of `processFile`: the required-column error, or the
formatted records together with the manager statistics. -/
inductive ProcResult where
  | missingColumns : ProcResult
  | ok : List EmployeeRecord → StatsMap → ProcResult
deriving DecidableEq, Repr

/-- The data pipeline of `processFile` (App.js lines 94-185) after
decoding: locate the two required columns by name (error when either
is absent), map every data row to a record, fold the records into
per-manager statistics, then compute the averages. -/
def processFile (headers : List CellValue) (rows : List (List CellValue)) :
    ProcResult :=
  match leidinggevendeIndexOf headers, parttimeIndexOf headers with
  | some leidIdx, some partIdx =>
    let formattedData := rows.map (formatRow (aanwezigIndexOf headers) leidIdx partIdx)
    ProcResult.ok formattedData (computeAverages (buildStats formattedData))
  | _, _ => ProcResult.missingColumns

/-- The "Employees" sheet written by `downloadExcelWithHighlighting`
(App.js lines 235-247): a fixed header row and one row per record with
the formatted present label. -/
def exportEmployeesSheet (data : List EmployeeRecord) : List (List CellValue) :=
  [CellValue.str "Name", CellValue.str "Function", CellValue.str "PO",
    CellValue.str "Part-time %", CellValue.str "Present"] ::
  data.map (fun e =>
    [e.name, e.function, e.manager, e.partTimePercentage,
      CellValue.str (formatPresentDisplay e.present)])

/-- The "Statistics" sheet (App.js lines 255-267): a fixed header row
and one row per manager group. -/
def exportStatsSheet (stats : StatsMap) : List (List CellValue) :=
  [CellValue.str "Product Owner", CellValue.str "Total Employees",
    CellValue.str "Present", CellValue.str "Absent",
    CellValue.str "Avg. Part-time %"] ::
  stats.map (fun kv =>
    [CellValue.str kv.1, CellValue.num (kv.2.totalEmployees : ℚ),
      CellValue.num (kv.2.presentEmployees : ℚ),
      CellValue.num (kv.2.absentEmployees : ℚ),
      match kv.2.avgPartTimePercentage with
      | .val q => CellValue.num q
      | .nan => CellValue.str "NaN"])

/-- Re-import of the exported "Employees" sheet through the same
pipeline: its first row becomes the header list, the rest the data
rows. -/
def reimportExport (res : ProcResult) : ProcResult :=
  match res with
  | .missingColumns => .missingColumns
  | .ok recs _ =>
    match exportEmployeesSheet recs with
    | [] => .missingColumns
    | hdr :: rest => processFile hdr rest

/-- Record list of a successful result (empty on error). -/
def resRecords : ProcResult → List EmployeeRecord
  | .missingColumns => []
  | .ok recs _ => recs

/-- Stats map of a successful result (empty on error). -/
def resStats : ProcResult → StatsMap
  | .missingColumns => []
  | .ok _ stats => stats

/-- Number of produced records, `none` on error. -/
def recordCount : ProcResult → Option Nat
  | .missingColumns => none
  | .ok recs _ => some recs.length

/-- Lookup of one manager's statistics in a result. -/
def statOf (res : ProcResult) (key : String) : Option ManagerStats :=
  match res with
  | .missingColumns => none
  | .ok _ stats => lookupM stats key

/-- Sample header list used by the concrete witnesses below. -/
def wHeaders : List CellValue :=
  [CellValue.str "Leidinggevende", CellValue.str "Parttime (%)"]

/-- Sample data rows used by the concrete witnesses below. -/
def wRows : List (List CellValue) := [[CellValue.str "M", CellValue.num 50]]

/-- The record `processFile wHeaders wRows` produces from its one row. -/
def wRecord : EmployeeRecord :=
  { id := CellValue.str "M", name := CellValue.num 50, function := CellValue.undef
    employmentType := CellValue.undef, employeeType := CellValue.undef
    startDate := none, endDate := none, employer := CellValue.undef
    manager := CellValue.str "M", partTimePercentage := CellValue.num 50
    present := CellValue.str "nee" }

/-- The stats entry `processFile wHeaders wRows` produces for manager "M". -/
def wStatsM : ManagerStats :=
  { totalEmployees := 1, presentEmployees := 0, absentEmployees := 1
    totalPartTimePercentage := JNum.val 50, avgPartTimePercentage := JNum.val 50 }

/-- The stats map `processFile wHeaders wRows` produces. -/
def wStats : StatsMap := [("M", wStatsM)]

/-- The pre-averaging stats entry after folding the one record of
`wRows` (the average field still holds its initial 0). -/
def wStatsM0 : ManagerStats :=
  { totalEmployees := 1, presentEmployees := 0, absentEmployees := 1
    totalPartTimePercentage := JNum.val 50, avgPartTimePercentage := JNum.val 0 }

/-- Header list with a participation column, for the C10 witness. -/
def w10Headers : List CellValue :=
  [CellValue.str "Aanwezig", CellValue.str "Leidinggevende", CellValue.str "Parttime (%)"]

/-- The single data row matching `w10Headers`. -/
def w10Row : List CellValue :=
  [CellValue.str "ja", CellValue.str "M", CellValue.num 50]

/-- The data rows `[w10Row]`. -/
def w10Rows : List (List CellValue) := [w10Row]

/-- The record produced from `w10Row`. -/
def w10Record : EmployeeRecord :=
  { id := CellValue.str "ja", name := CellValue.str "M", function := CellValue.num 50
    employmentType := CellValue.undef, employeeType := CellValue.undef
    startDate := none, endDate := none, employer := CellValue.undef
    manager := CellValue.str "M", partTimePercentage := CellValue.num 50
    present := CellValue.str "ja" }

/-- The stats map produced from `w10Rows`. -/
def w10Stats : StatsMap :=
  [("M", { totalEmployees := 1, presentEmployees := 1, absentEmployees := 0
           totalPartTimePercentage := JNum.val 50, avgPartTimePercentage := JNum.val 50 })]

/-! ### Helper lemmas about the embedded operations -/

theorem qAdd_eq (a b : ℚ) : qAdd a b = a + b := by
  rw [qAdd, Rat.mkRat_eq_div, Rat.add_def, Rat.normalize_eq_mkRat, Rat.mkRat_eq_div]

theorem qMul_eq (a b : ℚ) : qMul a b = a * b := by
  rw [qMul, Rat.mkRat_eq_div, Rat.mul_def, Rat.normalize_eq_mkRat, Rat.mkRat_eq_div]

theorem qDiv_eq (a b : ℚ) : qDiv a b = a / b := by
  by_cases hbz : b = 0
  · subst hbz; simp [qDiv, Rat.divInt_eq_div]
  · have h1 : ((a.den : ℚ)) ≠ 0 := Nat.cast_ne_zero.mpr a.pos.ne'
    have h2 : ((b.den : ℚ)) ≠ 0 := Nat.cast_ne_zero.mpr b.pos.ne'
    have h3 : ((b.num : ℤ) : ℚ) ≠ 0 := by
      exact_mod_cast Rat.num_ne_zero.mpr hbz
    rw [qDiv, Rat.divInt_eq_div]
    push_cast
    rw [div_eq_div_iff (mul_ne_zero h1 h3) hbz]
    have hA : a * (a.den : ℚ) = a.num := (eq_div_iff h1).mp (Rat.num_div_den a).symm
    have hB : b * (b.den : ℚ) = b.num := (eq_div_iff h2).mp (Rat.num_div_den b).symm
    rw [← hA, ← hB]; ring

theorem findIndexCV_eq_none_iff (p : CellValue → Bool) (l : List CellValue) :
    findIndexCV p l = none ↔ ∀ x ∈ l, p x = false := by
  induction l with
  | nil => simp [findIndexCV]
  | cons a t ih =>
    by_cases h : p a
    · simp [findIndexCV, h]
    · simp [findIndexCV, h, ih]

theorem findIndexCV_beq_none_iff (a : CellValue) (l : List CellValue) :
    findIndexCV (fun h => h == a) l = none ↔ a ∉ l := by
  rw [findIndexCV_eq_none_iff]
  constructor
  · intro h ha
    have := h a ha
    simp at this
  · intro ha x hx
    simp only [beq_eq_false_iff_ne, ne_eq]
    intro hxa
    exact ha (hxa ▸ hx)

theorem findIndexCV_eq_some_iff (p : CellValue → Bool) (l : List CellValue) (i : Nat) :
    findIndexCV p l = some i ↔
      ∃ x, l[i]? = some x ∧ p x = true ∧
        ∀ j, j < i → ∀ y, l[j]? = some y → p y = false := by
  induction l generalizing i with
  | nil => simp [findIndexCV]
  | cons a t ih =>
    simp only [findIndexCV]
    by_cases h : p a
    · simp only [h, if_true]
      constructor
      · intro h0
        obtain rfl : (0 : Nat) = i := Option.some.inj h0
        exact ⟨a, by simp, h, fun j hj => absurd hj (Nat.not_lt_zero j)⟩
      · rintro ⟨x, hx, hpx, hmin⟩
        cases i with
        | zero => rfl
        | succ k =>
          exact absurd (hmin 0 (Nat.succ_pos k) a (by simp)) (by simp [h])
    · simp only [h, Bool.false_eq_true, if_false]
      cases i with
      | zero =>
        rw [Option.map_eq_some']
        constructor
        · rintro ⟨j, -, hj⟩
          exact absurd hj (Nat.succ_ne_zero j)
        · rintro ⟨x, hx, hpx, -⟩
          have hax : a = x := by simpa using hx
          exact absurd hpx (by simp [← hax, h])
      | succ k =>
        rw [Option.map_eq_some']
        constructor
        · rintro ⟨j, hj, hji⟩
          have hjk : j = k := by omega
          rw [hjk] at hj
          obtain ⟨x, hx, hpx, hmin⟩ := (ih k).mp hj
          refine ⟨x, by simpa using hx, hpx, ?_⟩
          intro j hjlt y hy
          cases j with
          | zero =>
            have hay : a = y := by simpa using hy
            simp [← hay, h]
          | succ j' =>
            exact hmin j' (by omega) y (by simpa using hy)
        · rintro ⟨x, hx, hpx, hmin⟩
          refine ⟨k, (ih k).mpr ⟨x, by simpa using hx, hpx, ?_⟩, rfl⟩
          intro j hjlt y hy
          exact hmin (j + 1) (by omega) y (by simpa using hy)

theorem lookupM_mem {ms : StatsMap} {k : String} {st : ManagerStats}
    (h : lookupM ms k = some st) : (k, st) ∈ ms := by
  induction ms with
  | nil => simp [lookupM] at h
  | cons a rest ih =>
    obtain ⟨k', v⟩ := a
    by_cases hk : k' = k
    · simp [lookupM, hk] at h
      subst hk
      subst h
      exact List.mem_cons_self _ _
    · simp only [lookupM, hk, if_false] at h
      exact List.mem_cons_of_mem _ (ih h)

theorem mem_updateM {ms : StatsMap} {key : String} {f : ManagerStats → ManagerStats}
    {kv : String × ManagerStats} (h : kv ∈ updateM ms key f) :
    kv ∈ ms ∨ ∃ v, (kv.1, v) ∈ ms ∧ kv.2 = f v := by
  induction ms with
  | nil => simp [updateM] at h
  | cons a rest ih =>
    obtain ⟨k, v⟩ := a
    by_cases hk : k = key
    · simp only [updateM, hk, if_true] at h
      rcases List.mem_cons.mp h with h1 | h1
      · subst hk
        right
        exact ⟨v, by rw [h1]; exact List.mem_cons_self _ _, by rw [h1]⟩
      · left
        exact List.mem_cons_of_mem _ h1
    · simp only [updateM, hk, if_false] at h
      rcases List.mem_cons.mp h with h1 | h1
      · left
        rw [h1]
        exact List.mem_cons_self _ _
      · rcases ih h1 with h2 | ⟨w, hw, hfw⟩
        · left
          exact List.mem_cons_of_mem _ h2
        · right
          exact ⟨w, List.mem_cons_of_mem _ hw, hfw⟩

theorem updateM_append_not_found {ms : StatsMap} {key : String} {v : ManagerStats}
    (f : ManagerStats → ManagerStats) (h : lookupM ms key = none) :
    updateM (ms ++ [(key, v)]) key f = ms ++ [(key, f v)] := by
  induction ms with
  | nil => simp [updateM]
  | cons a rest ih =>
    obtain ⟨k, w⟩ := a
    by_cases hk : k = key
    · simp [lookupM, hk] at h
    · simp only [lookupM, hk, if_false] at h
      simp only [List.cons_append, updateM, hk, if_false, List.append_eq]
      rw [ih h]
theorem bumpStats_totalEmployees (e : EmployeeRecord) (st : ManagerStats) :
    (bumpStats e st).totalEmployees = st.totalEmployees + 1 := by
  unfold bumpStats
  split <;> split <;> rfl

theorem bumpStats_counts (e : EmployeeRecord) (st : ManagerStats) :
    (bumpStats e st).presentEmployees + (bumpStats e st).absentEmployees
      = st.presentEmployees + st.absentEmployees + 1 := by
  unfold bumpStats
  split <;> split <;> simp <;> omega

theorem statsStep_pres {P : ManagerStats → Prop}
    (hbump : ∀ e st, P st → P (bumpStats e st))
    (hbumpInit : ∀ e, P (bumpStats e initStats))
    {ms : StatsMap} (hms : ∀ kv ∈ ms, P kv.2) (e : EmployeeRecord) :
    ∀ kv ∈ statsStep ms e, P kv.2 := by
  intro kv hkv
  unfold statsStep at hkv
  by_cases hm : truthy e.manager
  · simp only [hm, if_true] at hkv
    by_cases hlk : (lookupM ms (toKey e.manager)).isSome
    · simp only [hlk, if_true] at hkv
      rcases mem_updateM hkv with h1 | ⟨v, hv, hfv⟩
      · exact hms _ h1
      · rw [hfv]
        exact hbump _ _ (hms (kv.1, v) hv)
    · simp only [hlk, Bool.false_eq_true, if_false] at hkv
      rw [updateM_append_not_found _ (Option.not_isSome_iff_eq_none.mp hlk)] at hkv
      rcases List.mem_append.mp hkv with h1 | h1
      · exact hms _ h1
      · have h2 : kv = (toKey e.manager, bumpStats e initStats) := by simpa using h1
        rw [h2]
        exact hbumpInit e
  · simp only [hm, if_false] at hkv
    exact hms _ hkv

theorem foldl_statsStep_pres {P : ManagerStats → Prop}
    (hbump : ∀ e st, P st → P (bumpStats e st))
    (hbumpInit : ∀ e, P (bumpStats e initStats)) :
    ∀ (recs : List EmployeeRecord) (ms : StatsMap), (∀ kv ∈ ms, P kv.2) →
      ∀ kv ∈ recs.foldl statsStep ms, P kv.2 := by
  intro recs
  induction recs with
  | nil =>
    intro ms hms kv hkv
    simp only [List.foldl_nil] at hkv
    exact hms kv hkv
  | cons e rest ih =>
    intro ms hms kv hkv
    simp only [List.foldl_cons] at hkv
    exact ih _ (statsStep_pres hbump hbumpInit hms e) kv hkv

theorem buildStats_pres {P : ManagerStats → Prop}
    (hbump : ∀ e st, P st → P (bumpStats e st))
    (hbumpInit : ∀ e, P (bumpStats e initStats))
    (recs : List EmployeeRecord) :
    ∀ kv ∈ buildStats recs, P kv.2 :=
  foldl_statsStep_pres hbump hbumpInit recs [] (by intro kv hkv; simp at hkv)

theorem lookupM_computeAverages (ms : StatsMap) (k : String) :
    lookupM (computeAverages ms) k = (lookupM ms k).map setAvg := by
  induction ms with
  | nil => simp [computeAverages, lookupM]
  | cons a rest ih =>
    obtain ⟨k', v⟩ := a
    by_cases hk : k' = k
    · simp [computeAverages, lookupM, hk]
    · simp only [computeAverages, List.map_cons] at ih ⊢
      simp only [lookupM, hk, if_false]
      exact ih

theorem setAvg_totalEmployees (st : ManagerStats) :
    (setAvg st).totalEmployees = st.totalEmployees := rfl

theorem setAvg_presentEmployees (st : ManagerStats) :
    (setAvg st).presentEmployees = st.presentEmployees := rfl

theorem setAvg_absentEmployees (st : ManagerStats) :
    (setAvg st).absentEmployees = st.absentEmployees := rfl

theorem setAvg_totalPartTimePercentage (st : ManagerStats) :
    (setAvg st).totalPartTimePercentage = st.totalPartTimePercentage := rfl

theorem processFile_ok_elim {headers : List CellValue} {rows : List (List CellValue)}
    {recs : List EmployeeRecord} {stats : StatsMap}
    (h : processFile headers rows = ProcResult.ok recs stats) :
    ∃ lI pI, leidinggevendeIndexOf headers = some lI ∧
      parttimeIndexOf headers = some pI ∧
      recs = rows.map (formatRow (aanwezigIndexOf headers) lI pI) ∧
      stats = computeAverages (buildStats recs) := by
  unfold processFile at h
  rcases hL : leidinggevendeIndexOf headers with _ | lI
  · rw [hL] at h
    simp at h
  · rcases hP : parttimeIndexOf headers with _ | pI
    · rw [hL, hP] at h
      simp at h
    · rw [hL, hP] at h
      simp only [ProcResult.ok.injEq] at h
      exact ⟨lI, pI, rfl, rfl, h.1.symm, by rw [← h.2, h.1]⟩
theorem leidinggevendeIndexOf_eq_none_iff (headers : List CellValue) :
    leidinggevendeIndexOf headers = none ↔ CellValue.str "Leidinggevende" ∉ headers := by
  unfold leidinggevendeIndexOf
  exact findIndexCV_beq_none_iff _ _

theorem parttimeIndexOf_eq_none_iff (headers : List CellValue) :
    parttimeIndexOf headers = none ↔ CellValue.str "Parttime (%)" ∉ headers := by
  unfold parttimeIndexOf
  exact findIndexCV_beq_none_iff _ _

theorem formatRow_present (aIdx : Option Nat) (lI pI : Nat) (row : List CellValue) :
    (formatRow aIdx lI pI row).present =
      (match aIdx with
        | some j =>
          if rowGet row j = CellValue.undef then CellValue.str "nee" else rowGet row j
        | none => CellValue.str "nee") := by
  cases aIdx with
  | none => simp [formatRow]
  | some j =>
    by_cases h : rowGet row j = CellValue.undef <;> simp [formatRow, h]

/-! ### Claim theorems -/

/-- Claim C1: the presence classification used by the aggregator agrees,
on every possible cell value, with the spec's `classifyPresence`: a
native boolean classifies as itself, a number is present iff nonzero, a
string is present iff its lower-cased trimmed form is one of
`ja, yes, y, true, 1` (so `nee`, `no`, the empty string and unrecognized
text are absent), and `undefined`/`null` are absent. -/
theorem aggregator_presence_matches_spec (v : CellValue) :
    isPresent v = classifyPresenceSpec v := by
  cases v <;> rfl

/-- Claim C3, evaluated at the failing input: a record whose part-time
field is the non-numeric string "abc" does not contribute 0 — it sets
the manager's `totalPartTimePercentage` (and hence the average) to NaN,
because the truthiness guard lets the string through and `parseFloat`
returns NaN. -/
theorem nonNumeric_parttime_poisons_sum :
    statOf (processFile [CellValue.str "Leidinggevende", CellValue.str "Parttime (%)"]
        [[CellValue.str "M", CellValue.str "abc"]]) "M" =
      some { totalEmployees := 1, presentEmployees := 0, absentEmployees := 1,
             totalPartTimePercentage := JNum.nan, avgPartTimePercentage := JNum.nan } := by
  decide

/-- Claim C4: `processFile` reports the missing-columns error exactly
when the header list lacks an entry equal to the string
"Leidinggevende" or lacks an entry equal to the string "Parttime (%)"
(the columns are located by name, not position); on that error no
records and no stats are produced (the error result carries none). -/
theorem missingColumns_iff (headers : List CellValue) (rows : List (List CellValue)) :
    processFile headers rows = ProcResult.missingColumns ↔
      (CellValue.str "Leidinggevende" ∉ headers ∨
        CellValue.str "Parttime (%)" ∉ headers) := by
  unfold processFile
  rcases hLo : leidinggevendeIndexOf headers with _ | lI <;>
    rcases hPo : parttimeIndexOf headers with _ | pI
  · exact iff_of_true rfl (Or.inl ((leidinggevendeIndexOf_eq_none_iff headers).mp hLo))
  · exact iff_of_true rfl (Or.inl ((leidinggevendeIndexOf_eq_none_iff headers).mp hLo))
  · exact iff_of_true rfl (Or.inr ((parttimeIndexOf_eq_none_iff headers).mp hPo))
  · refine iff_of_false (by simp) ?_
    rintro (h | h)
    · have h2 := (leidinggevendeIndexOf_eq_none_iff headers).mpr h
      rw [hLo] at h2
      exact Option.noConfusion h2
    · have h2 := (parttimeIndexOf_eq_none_iff headers).mpr h
      rw [hPo] at h2
      exact Option.noConfusion h2

/-- Claim C8: when both required headers are present the workbook is
accepted and exactly one record is produced per data row — no row is
dropped or added because of its content. -/
theorem records_length_eq_rows_length (headers : List CellValue)
    (rows : List (List CellValue))
    (hL : CellValue.str "Leidinggevende" ∈ headers)
    (hP : CellValue.str "Parttime (%)" ∈ headers) :
    processFile headers rows ≠ ProcResult.missingColumns ∧
    (resRecords (processFile headers rows)).length = rows.length := by
  rcases hLo : leidinggevendeIndexOf headers with _ | lI
  · exact absurd ((leidinggevendeIndexOf_eq_none_iff headers).mp hLo) (not_not_intro hL)
  · rcases hPo : parttimeIndexOf headers with _ | pI
    · exact absurd ((parttimeIndexOf_eq_none_iff headers).mp hPo) (not_not_intro hP)
    · unfold processFile
      rw [hLo, hPo]
      exact ⟨by simp, by simp [resRecords]⟩

/-- Claim C8 witness at a concrete accepted workbook. -/
theorem records_length_eq_rows_length_witness :
    processFile wHeaders wRows ≠ ProcResult.missingColumns ∧
    (resRecords (processFile wHeaders wRows)).length = wRows.length :=
  records_length_eq_rows_length wHeaders wRows (by decide) (by decide)

/-- Claim C7: in the stats produced by an accepted workbook, every
manager group satisfies `presentEmployees + absentEmployees =
totalEmployees` (the counters are `Nat`, hence non-negative by
construction), and the same balance holds for every group after
folding any prefix of the produced records — each counted record
increments the total and exactly one of present/absent. -/
theorem manager_counts_balance (headers : List CellValue)
    (rows : List (List CellValue)) (recs : List EmployeeRecord) (stats : StatsMap)
    (n : Nat) (k k2 : String) (st st2 : ManagerStats)
    (hok : processFile headers rows = ProcResult.ok recs stats)
    (hst : lookupM stats k = some st)
    (hpre : lookupM ((recs.take n).foldl statsStep []) k2 = some st2) :
    st.presentEmployees + st.absentEmployees = st.totalEmployees ∧
    st2.presentEmployees + st2.absentEmployees = st2.totalEmployees := by
  obtain ⟨lI, pI, hLo, hPo, hrecs, hstats⟩ := processFile_ok_elim hok
  have hbump : ∀ (e : EmployeeRecord) (s : ManagerStats),
      s.presentEmployees + s.absentEmployees = s.totalEmployees →
      (bumpStats e s).presentEmployees + (bumpStats e s).absentEmployees
        = (bumpStats e s).totalEmployees := by
    intro e s hs
    have h1 := bumpStats_counts e s
    have h2 := bumpStats_totalEmployees e s
    omega
  have hinit : ∀ e : EmployeeRecord,
      (bumpStats e initStats).presentEmployees + (bumpStats e initStats).absentEmployees
        = (bumpStats e initStats).totalEmployees := by
    intro e
    exact hbump e initStats rfl
  constructor
  · rw [hstats, lookupM_computeAverages] at hst
    rcases Option.map_eq_some'.mp hst with ⟨st0, hst0, hset⟩
    have hbal := buildStats_pres hbump hinit recs (k, st0) (lookupM_mem hst0)
    rw [← hset, setAvg_presentEmployees, setAvg_absentEmployees, setAvg_totalEmployees]
    exact hbal
  · exact foldl_statsStep_pres hbump hinit (recs.take n) []
      (by intro kv hkv; simp at hkv) (k2, st2) (lookupM_mem hpre)

/-- Claim C7 witness at a concrete accepted workbook. -/
theorem manager_counts_balance_witness :
    wStatsM.presentEmployees + wStatsM.absentEmployees = wStatsM.totalEmployees ∧
    wStatsM0.presentEmployees + wStatsM0.absentEmployees = wStatsM0.totalEmployees :=
  manager_counts_balance wHeaders wRows [wRecord] wStats 1 "M" "M" wStatsM wStatsM0
    (by decide) (by decide) (by decide)

/-- Claim C9: every manager group in the produced stats has
`totalEmployees ≥ 1` (a group is created only when a record with that
manager is folded in, and its counter is incremented in the same step),
and its average is exactly the post-fold second pass
`roundTo2 (totalPartTimePercentage / totalEmployees)` — so the division
never has a zero divisor. -/
theorem avg_division_never_by_zero (headers : List CellValue)
    (rows : List (List CellValue)) (recs : List EmployeeRecord) (stats : StatsMap)
    (k : String) (st : ManagerStats)
    (hok : processFile headers rows = ProcResult.ok recs stats)
    (hst : lookupM stats k = some st) :
    1 ≤ st.totalEmployees ∧
    st.avgPartTimePercentage =
      roundTo2 (JNum.div st.totalPartTimePercentage
        (JNum.val (st.totalEmployees : ℚ))) := by
  obtain ⟨lI, pI, hLo, hPo, hrecs, hstats⟩ := processFile_ok_elim hok
  rw [hstats, lookupM_computeAverages] at hst
  rcases Option.map_eq_some'.mp hst with ⟨st0, hst0, hset⟩
  have hbump : ∀ (e : EmployeeRecord) (s : ManagerStats),
      1 ≤ s.totalEmployees → 1 ≤ (bumpStats e s).totalEmployees := by
    intro e s hs
    rw [bumpStats_totalEmployees]
    omega
  have hinit : ∀ e : EmployeeRecord, 1 ≤ (bumpStats e initStats).totalEmployees := by
    intro e
    rw [bumpStats_totalEmployees]
    exact Nat.succ_le_succ (Nat.zero_le _)
  have h1 : 1 ≤ st0.totalEmployees :=
    buildStats_pres hbump hinit recs (k, st0) (lookupM_mem hst0)
  constructor
  · rw [← hset, setAvg_totalEmployees]
    exact h1
  · rw [← hset]
    simp only [setAvg_totalPartTimePercentage, setAvg_totalEmployees]
    rfl

/-- Claim C9 witness at a concrete accepted workbook. -/
theorem avg_division_never_by_zero_witness :
    1 ≤ wStatsM.totalEmployees ∧
    wStatsM.avgPartTimePercentage =
      roundTo2 (JNum.div wStatsM.totalPartTimePercentage
        (JNum.val (wStatsM.totalEmployees : ℚ))) :=
  avg_division_never_by_zero wHeaders wRows [wRecord] wStats "M" wStatsM
    (by decide) (by decide)

/-- Claim C10: for every data row of an accepted workbook, the produced
record's `present` field is the raw cell of the located participation
column when that cell is defined, and the literal string "nee" when the
cell is `undefined` — whether because the participation column is
absent (`aanwezigIndexOf = none`) or because the row's cell is missing. -/
theorem present_field_raw_or_nee (headers : List CellValue)
    (rows : List (List CellValue)) (recs : List EmployeeRecord) (stats : StatsMap)
    (i : Nat) (row : List CellValue) (rec : EmployeeRecord)
    (hok : processFile headers rows = ProcResult.ok recs stats)
    (hrow : rows[i]? = some row) (hrec : recs[i]? = some rec) :
    rec.present =
      (match aanwezigIndexOf headers with
        | some j =>
          if rowGet row j = CellValue.undef then CellValue.str "nee" else rowGet row j
        | none => CellValue.str "nee") := by
  obtain ⟨lI, pI, hLo, hPo, hrecs, -⟩ := processFile_ok_elim hok
  subst hrecs
  rw [List.getElem?_map, hrow, Option.map_some'] at hrec
  obtain rfl : formatRow (aanwezigIndexOf headers) lI pI row = rec :=
    Option.some.inj hrec
  exact formatRow_present (aanwezigIndexOf headers) lI pI row

/-- Claim C10 witness: with an "Aanwezig" column and a defined cell
"ja", the produced record's `present` field is that raw cell. -/
theorem present_field_raw_or_nee_witness : w10Record.present = CellValue.str "ja" :=
  (present_field_raw_or_nee w10Headers w10Rows [w10Record] w10Stats 0 w10Row w10Record
    (by decide) (by decide) (by decide)).trans (by decide)

/-- Claim C5 counterexample: a concrete accepted workbook (header row
`Leidinggevende`, `Parttime (%)`; one data row) yields one record, but
re-importing its exported "Employees" sheet through the same pipeline
fails with the missing-columns error — so the round trip does not
reproduce the records. -/
theorem roundtrip_loses_all_records :
    recordCount (processFile [CellValue.str "Leidinggevende", CellValue.str "Parttime (%)"]
      [[CellValue.str "Alice", CellValue.num 50]]) = some 1 ∧
    reimportExport (processFile [CellValue.str "Leidinggevende", CellValue.str "Parttime (%)"]
      [[CellValue.str "Alice", CellValue.num 50]]) = ProcResult.missingColumns := by
  decide

/-- Claim C5 amended: re-importing the exported "Employees" sheet of
any successful result always fails with the missing-columns error,
because the export writes the header row
`Name, Function, PO, Part-time %, Present`, which contains neither
"Leidinggevende" nor "Parttime (%)"; no records are reproduced. -/
theorem reimport_of_export_always_missing_columns
    (recs : List EmployeeRecord) (stats : StatsMap) :
    reimportExport (ProcResult.ok recs stats) = ProcResult.missingColumns := rfl

/-- Claim C6 counterexample: with header row
`Present, Aanwezig, Leidinggevende, Parttime (%)` the located
participation column is index 0 — the one headed "Present" — even
though an "Aanwezig" column exists at index 1; the produced record's
`present` field comes from the "Present" column ("nee"), not from the
"Aanwezig" column ("ja").  So "Aanwezig" is not prioritized over
"Present"; position decides. -/
theorem participation_column_priority_is_positional :
    aanwezigIndexOf [CellValue.str "Present", CellValue.str "Aanwezig",
      CellValue.str "Leidinggevende", CellValue.str "Parttime (%)"] = some 0 ∧
    (resRecords (processFile [CellValue.str "Present", CellValue.str "Aanwezig",
        CellValue.str "Leidinggevende", CellValue.str "Parttime (%)"]
        [[CellValue.str "nee", CellValue.str "ja", CellValue.str "M",
          CellValue.num 50]])).map (fun r => r.present) = [CellValue.str "nee"] := by
  decide

/-- Claim C6 amended: the participation column is located by exact
header match against "Aanwezig", "Present" or "Participation", and
among matching columns the one with the smallest index is chosen,
regardless of which of the three names it bears. -/
theorem participation_column_leftmost (headers : List CellValue) (i : Nat) :
    aanwezigIndexOf headers = some i ↔
      ∃ h, headers[i]? = some h ∧ isParticipationHeader h = true ∧
        ∀ j, j < i → ∀ h2, headers[j]? = some h2 → isParticipationHeader h2 = false :=
  findIndexCV_eq_some_iff isParticipationHeader headers i

/-- Claim C2 counterexample: the three consumers of the participation
flag do not agree on every cell value.  The string "ja " (trailing
space) is classified present by the aggregator (which trims) but the
display predicate (which does not trim) highlights it as non-present;
the number 2 is classified present by the aggregator but the export
label falls back to the strict `=== true || === 1` check and prints
"No". -/
theorem presence_consumers_disagree :
    (isPresent (CellValue.str "ja ") = true ∧
      isPresentClassName (CellValue.str "ja ") = "bg-red-200") ∧
    (isPresent (CellValue.num 2) = true ∧
      formatPresentDisplay (CellValue.num 2) = "No") := by
  decide

theorem truthy_falsy_disjoint (t : String) (ht : truthyStrings.contains t = true) :
    falsyStrings.contains t = false := by
  have h5 : t = "ja" ∨ t = "yes" ∨ t = "y" ∨ t = "true" ∨ t = "1" := by
    simpa [truthyStrings] using ht
  rcases h5 with rfl | rfl | rfl | rfl | rfl <;> decide

/-- Claim C2 amended: the display-highlighting predicate agrees with
the aggregator's classification on every value except strings whose
lower-cased form changes under trimming (so on all non-string values
and on trim-invariant strings), and the export label is "Yes" exactly
when the aggregator classifies present on every value except numbers
other than 0 and 1 (so on all booleans, strings, null, undefined and
the numbers 0 and 1).  Each agreement is guarded only by its own side
condition. -/
theorem presence_consumers_agree_on_restricted (v : CellValue) :
    ((∀ s, v = CellValue.str s → jsTrim (jsToLower s) = jsToLower s) →
      (isPresentClassName v = "" ↔ isPresent v = true)) ∧
    ((∀ q, v = CellValue.num q → q = 0 ∨ q = 1) →
      (formatPresentDisplay v = "Yes" ↔ isPresent v = true)) := by
  constructor
  · intro hdisp
    cases v with
    | undef => decide
    | null => decide
    | bool b => cases b <;> decide
    | num q =>
      simp only [isPresentClassName, isPresent]
      by_cases hq : q = 0
      · rw [if_pos hq]
        exact iff_of_false (by decide) (by simp [hq])
      · rw [if_neg hq]
        exact iff_of_true rfl (by simp [hq])
    | str s =>
      have htrim := hdisp s rfl
      simp only [isPresentClassName, isPresent, htrim]
      by_cases hc : truthyStrings.contains (jsToLower s) = true
      · have hcond : ¬(s = "" ∨ falsyStrings.contains (jsToLower s) = true ∨
            ¬ truthyStrings.contains (jsToLower s) = true) := by
          rintro (h0 | hf | hnt)
          · subst h0
            exact absurd hc (by decide)
          · exact absurd hf (by rw [truthy_falsy_disjoint _ hc]; decide)
          · exact hnt hc
        rw [if_neg hcond]
        exact iff_of_true rfl hc
      · rw [if_pos (Or.inr (Or.inr hc))]
        exact iff_of_false (by decide) hc
  · intro hnum
    cases v with
    | undef => decide
    | null => decide
    | bool b => cases b <;> decide
    | num q => rcases hnum q rfl with rfl | rfl <;> decide
    | str s =>
      simp only [formatPresentDisplay, isPresent]
      by_cases hc : truthyStrings.contains (jsTrim (jsToLower s)) = true
      · rw [if_pos hc]
        exact iff_of_true rfl hc
      · rw [if_neg hc]
        by_cases hf : falsyStrings.contains (jsTrim (jsToLower s)) = true
        · rw [if_pos hf]
          exact iff_of_false (by decide) hc
        · rw [if_neg hf]
          have hfb : formatPresentFallback (CellValue.str s) = "No" := rfl
          rw [hfb]
          exact iff_of_false (by decide) hc

/-- Claim C2 amended, witnessed at the number 2 (display agreement
with the string side condition vacuous — the case the amendment covers
for non-strings) and at the non-trim-invariant string "ja " (export
agreement with the number side condition vacuous — the case the
amendment covers for strings). -/
theorem presence_consumers_agree_on_restricted_witness :
    (isPresentClassName (CellValue.num 2) = "" ↔
      isPresent (CellValue.num 2) = true) ∧
    (formatPresentDisplay (CellValue.str "ja ") = "Yes" ↔
      isPresent (CellValue.str "ja ") = true) :=
  ⟨(presence_consumers_agree_on_restricted (CellValue.num 2)).1
      (fun _ h => CellValue.noConfusion h),
    (presence_consumers_agree_on_restricted (CellValue.str "ja ")).2
      (fun _ h => CellValue.noConfusion h)⟩
